import Mathlib

set_option linter.unusedSectionVars false

/-!
# Verification of the PyFR polynomial-basis module (`pyfr/polys.py`)

This file is a shallow embedding, in exact field arithmetic, of the module
`pyfr/polys.py`: the seven shape-specific orthonormal basis generators, the
shared batch-evaluation layer, the Vandermonde/nodal layer, and the factory.

Conventions of the embedding:

* The extended-precision scalars (`mpmath.mp`) are modelled by an arbitrary
  field `R` with decidable equality; `mp.sqrt` is modelled by an explicit
  function parameter `sq : R → R`.  Theorems that need the value of a square
  root instantiate `R := ℝ` and `sq := Real.sqrt`.
* The `@chop` decorator truncates entries whose floating-point magnitude is
  below a fixed tolerance; in the exact-arithmetic embedding no such noise
  arises and the truncation is the identity, so it is not represented.
* `jacobi`/`jacobi_diff` live in `pyfr/mputil.py`, which is not part of the
  sources; they are modelled from the spec (§4.1) as the standard three-term
  recurrence and the standard derivative identity.
* A Python loop `for i, pi in enumerate(jacobi(m - 1, a, b, x))` appears as a
  map over `List.range m` with `jacobiP a b x i` in place of `pi`; this is the
  same list because `jacobi(m - 1, ...)` holds the degree-`0..m-1` values.
-/

namespace Polys

variable {R : Type} [Field R] [DecidableEq R]

/-- Modelled from the spec (§4.1; `pyfr.mputil.jacobi` is not under `src/`):
the degree-`n` Jacobi polynomial `P_n^(a,b)` at `x`, by the standard
three-term recurrence with explicit degree-0 and degree-1 seeds. -/
def jacobiP (a b x : R) : ℕ → R
  | 0 => 1
  | 1 => ((a + b + 2) * x + (a - b)) / 2
  | n + 2 =>
      let m : R := (n : R) + 2
      let c : R := 2 * m + a + b
      ((c - 1) * ((c * (c - 2)) * x + (a ^ 2 - b ^ 2)) * jacobiP a b x (n + 1)
          - 2 * (m + a - 1) * (m + b - 1) * c * jacobiP a b x n)
        / (2 * m * (m + a + b) * (c - 2))

/-- Modelled from the spec (§4.1; `pyfr.mputil.jacobi_diff` is not under
`src/`): the first derivative of `P_n^(a,b)` at `x`, via the standard identity
`d/dx P_n^(a,b) = ((n + a + b + 1)/2) · P_(n-1)^(a+1,b+1)`. -/
def jacobiDP (a b x : R) : ℕ → R
  | 0 => 0
  | n + 1 => (((n : R) + 1) + a + b + 1) / 2 * jacobiP (a + 1) (b + 1) x n

/-- Modelled from the spec (§4.1): `jacobi(maxDeg, a, b, x)` returns the
degree-`0..maxDeg` values.  We parameterize by the count `maxDeg + 1`, so the
source call `jacobi(order - 1, a, b, x)` is embedded as `jacobi order a b x`
(`order ≥ 1` everywhere the claims look). -/
def jacobi (count : ℕ) (a b x : R) : List R :=
  (List.range count).map (jacobiP a b x)

/-- Modelled from the spec (§4.1): companion derivative sequence. -/
def jacobi_diff (count : ℕ) (a b x : R) : List R :=
  (List.range count).map (jacobiDP a b x)

variable (sq : R → R)

/-! ## Line (`LinePolyBasis`, src lines 57-70) -/

/-- `LinePolyBasis.ortho_basis_at_mp` (src lines 60-62):
`[mp.sqrt(i + 0.5)*p for i, p in enumerate(jacobi(order - 1, 0, 0, p))]`. -/
def lineMp (order : ℕ) (p : R) : List R :=
  (List.range order).map (fun (i : ℕ) => sq ((i : R) + 1/2) * jacobiP 0 0 p i)

/-- `LinePolyBasis.jac_ortho_basis_at_mp` (src lines 64-66).  Note the source
returns a flat list of scalars here, not per-axis lists. -/
def lineJacMp (order : ℕ) (p : R) : List R :=
  (List.range order).map (fun (i : ℕ) => sq ((i : R) + 1/2) * jacobiDP 0 0 p i)

/-- `LinePolyBasis.degrees` (src lines 68-70): `list(range(self.order))`. -/
def lineDegrees (order : ℕ) : List ℕ :=
  List.range order

/-! ## Tri (`TriPolyBasis`, src lines 73-119) -/

/-- Index trace of the nested loops of `TriPolyBasis.ortho_basis_at_mp`
(src lines 80-87): outer `i` over `enumerate(jacobi(order - 1, ...))`
(length `order`), inner `j` over `enumerate(jacobi(order - i - 1, ...))`
(length `order - i`). -/
def triIdx (order : ℕ) : List (ℕ × ℕ) :=
  (List.range order).flatMap (fun (i : ℕ) =>
    (List.range (order - i)).map (fun (j : ℕ) => (i, j)))

/-- Body of `TriPolyBasis.ortho_basis_at_mp` after the collapsed coordinates
`a`, `b` are fixed (src lines 78-89, with `b = q`). -/
def triBody (order : ℕ) (a b : R) : List R :=
  (List.range order).flatMap (fun (i : ℕ) =>
    let pa := jacobiP 0 0 a i * (1 - b) ^ i
    (List.range (order - i)).map (fun (j : ℕ) =>
      let cij := sq ((2 * (i : R) + 1) * (2 * (i : R) + 2 * (j : R) + 2)) / 2 ^ (i + 1)
      cij * pa * jacobiP (2 * (i : R) + 1) 0 b j))

/-- The Tri/Pri collapsed coordinate (src line 77):
`a = 2*(1 + p)/(1 - q) - 1 if q != 1 else -1`. -/
def triA (p q : R) : R :=
  if q ≠ 1 then 2 * (1 + p) / (1 - q) - 1 else -1

/-- `TriPolyBasis.ortho_basis_at_mp` (src lines 76-89). -/
def triMp (order : ℕ) (p q : R) : List R :=
  triBody sq order (triA p q) q

/-- Body of `TriPolyBasis.jac_ortho_basis_at_mp` after the collapsed
coordinates are fixed (src lines 93-113, with `b = q`). -/
def triJacBody (order : ℕ) (a b : R) : List (List R) :=
  (List.range order).flatMap (fun (i : ℕ) =>
    let fi := jacobiP 0 0 a i
    let dfi := jacobiDP 0 0 a i
    (List.range (order - i)).map (fun (j : ℕ) =>
      let gj := jacobiP (2 * (i : R) + 1) 0 b j
      let dgj := jacobiDP (2 * (i : R) + 1) 0 b j
      let cij := sq ((2 * (i : R) + 1) * (2 * (i : R) + 2 * (j : R) + 2)) / 2 ^ (i + 1)
      let tmp := if 0 < i then (1 - b) ^ (i - 1) else 1
      let pij := 2 * tmp * dfi * gj
      let qij := tmp * (-(i : R) * fi + (1 + a) * dfi) * gj + (1 - b) ^ i * fi * dgj
      [cij * pij, cij * qij]))

/-- `TriPolyBasis.jac_ortho_basis_at_mp` (src lines 91-113). -/
def triJacMp (order : ℕ) (p q : R) : List (List R) :=
  triJacBody sq order (triA p q) q

/-- `TriPolyBasis.degrees` (src lines 115-119). -/
def triDegrees (order : ℕ) : List ℕ :=
  (List.range order).flatMap (fun (i : ℕ) =>
    (List.range (order - i)).map (fun (j : ℕ) => i + j))

/-! ## Quad (`QuadPolyBasis`, src lines 122-146) -/

/-- Index trace of `QuadPolyBasis.ortho_basis_at_mp` (src line 130):
`[pi*pj for pi in pa for pj in pb]` with `len(pa) = len(pb) = order`. -/
def quadIdx (order : ℕ) : List (ℕ × ℕ) :=
  (List.range order).flatMap (fun (i : ℕ) =>
    (List.range order).map (fun (j : ℕ) => (i, j)))

/-- `QuadPolyBasis.ortho_basis_at_mp` (src lines 125-130): tensor product of
two `sqrt(k + 0.5)`-scaled Jacobi(0,0) sequences. -/
def quadMp (order : ℕ) (p q : R) : List R :=
  (List.range order).flatMap (fun (i : ℕ) =>
    (List.range order).map (fun (j : ℕ) =>
      (sq ((i : R) + 1/2) * jacobiP 0 0 p i) * (sq ((j : R) + 1/2) * jacobiP 0 0 q j)))

/-- `QuadPolyBasis.jac_ortho_basis_at_mp` (src lines 132-142). -/
def quadJacMp (order : ℕ) (p q : R) : List (List R) :=
  (List.range order).flatMap (fun (i : ℕ) =>
    (List.range order).map (fun (j : ℕ) =>
      let pi_ := sq ((i : R) + 1/2) * jacobiP 0 0 p i
      let dpi := sq ((i : R) + 1/2) * jacobiDP 0 0 p i
      let pj := sq ((j : R) + 1/2) * jacobiP 0 0 q j
      let dpj := sq ((j : R) + 1/2) * jacobiDP 0 0 q j
      [dpi * pj, pi_ * dpj]))

/-- `QuadPolyBasis.degrees` (src lines 144-146). -/
def quadDegrees (order : ℕ) : List ℕ :=
  (List.range order).flatMap (fun (i : ℕ) =>
    (List.range order).map (fun (j : ℕ) => i + j))

/-! ## Tet (`TetPolyBasis`, src lines 149-221) -/

/-- Index trace of the nested loops of `TetPolyBasis.ortho_basis_at_mp`
(src lines 157-172). -/
def tetIdx (order : ℕ) : List (ℕ × ℕ × ℕ) :=
  (List.range order).flatMap (fun (i : ℕ) =>
    (List.range (order - i)).flatMap (fun (j : ℕ) =>
      (List.range (order - i - j)).map (fun (k : ℕ) => (i, j, k))))

/-- The first Tet collapsed coordinate (src line 153):
`a = -2*(1 + p)/(q + r) - 1 if r != -q else -1`. -/
def tetA (p q r : R) : R :=
  if r ≠ -q then -2 * (1 + p) / (q + r) - 1 else -1

/-- The second Tet collapsed coordinate (src line 154):
`b = 2*(1 + q)/(1 - r) - 1 if r != 1 else -1`. -/
def tetB (q r : R) : R :=
  if r ≠ 1 then 2 * (1 + q) / (1 - r) - 1 else -1

/-- Body of `TetPolyBasis.ortho_basis_at_mp` after the collapsed coordinates
`a`, `b` are fixed (src lines 155-172, with `c = r`). -/
def tetBody (order : ℕ) (a b c : R) : List R :=
  (List.range order).flatMap (fun (i : ℕ) =>
    let ci := (2 : R) ^ (-2 * (i : ℤ) - 1) * sq (2 * (i : R) + 1) * (1 - b) ^ i
    (List.range (order - i)).flatMap (fun (j : ℕ) =>
      let cj := sq ((i : R) + (j : R) + 1) * (2 : R) ^ (-(j : ℤ)) * (1 - c) ^ (i + j)
      let cij := ci * cj
      let pij := jacobiP 0 0 a i * jacobiP (2 * (i : R) + 1) 0 b j
      (List.range (order - i - j)).map (fun (k : ℕ) =>
        let ck := sq (2 * ((k : R) + (j : R) + (i : R)) + 3)
        cij * ck * pij * jacobiP (2 * ((i : R) + (j : R) + 1)) 0 c k)))

/-- `TetPolyBasis.ortho_basis_at_mp` (src lines 152-172). -/
def tetMp (order : ℕ) (p q r : R) : List R :=
  tetBody sq order (tetA p q r) (tetB q r) r

/-- Body of `TetPolyBasis.jac_ortho_basis_at_mp` after the collapsed
coordinates are fixed (src lines 177-214, with `c = r`). -/
def tetJacBody (order : ℕ) (a b c : R) : List (List R) :=
  (List.range order).flatMap (fun (i : ℕ) =>
    let fi := jacobiP 0 0 a i
    let dfi := jacobiDP 0 0 a i
    let ci := (2 : R) ^ (-2 * (i : ℤ) - 1) * sq (2 * (i : R) + 1)
    (List.range (order - i)).flatMap (fun (j : ℕ) =>
      let gj := jacobiP (2 * (i : R) + 1) 0 b j
      let dgj := jacobiDP (2 * (i : R) + 1) 0 b j
      let cj := sq ((i : R) + (j : R) + 1) * (2 : R) ^ (-(j : ℤ))
      let cij := ci * cj
      (List.range (order - i - j)).map (fun (k : ℕ) =>
        let hk := jacobiP (2 * ((i : R) + (j : R) + 1)) 0 c k
        let dhk := jacobiDP (2 * ((i : R) + (j : R) + 1)) 0 c k
        let ck := sq (2 * ((k : R) + (j : R) + (i : R)) + 3)
        let cijk := cij * ck
        let tmp1 := if 0 < i + j then (1 - c) ^ (i + j - 1) else 1
        let tmp2 := if 0 < i then tmp1 * (1 - b) ^ (i - 1) else 1
        let pijk := 4 * tmp2 * dfi * gj * hk
        let qijk := 2 * (tmp2 * (-(i : R) * fi + (1 + a) * dfi) * gj
            + tmp1 * (1 - b) ^ i * fi * dgj) * hk
        let rijk :=
          2 * (1 + a) * tmp2 * dfi * gj * hk
            + (1 + b) * tmp1 * (1 - b) ^ i * fi * dgj * hk
            + (1 - c) ^ (i + j) * (1 - b) ^ i * fi * gj * dhk
            - ((i : R) * (1 + b) * tmp2 + ((i : R) + (j : R)) * tmp1 * (1 - b) ^ i) * fi * gj * hk
        [cijk * pijk, cijk * qijk, cijk * rijk])))

/-- `TetPolyBasis.jac_ortho_basis_at_mp` (src lines 174-214). -/
def tetJacMp (order : ℕ) (p q r : R) : List (List R) :=
  tetJacBody sq order (tetA p q r) (tetB q r) r

/-- `TetPolyBasis.degrees` (src lines 216-221). -/
def tetDegrees (order : ℕ) : List ℕ :=
  (List.range order).flatMap (fun (i : ℕ) =>
    (List.range (order - i)).flatMap (fun (j : ℕ) =>
      (List.range (order - i - j)).map (fun (k : ℕ) => i + j + k)))

/-! ## Pri (`PriPolyBasis`, src lines 224-282) -/

/-- Index trace of `PriPolyBasis.ortho_basis_at_mp` (src lines 232-244):
triangle pairs `(i, j)` for `pab`, then the tensor product with `pc`
(length `order`) in `[pij*pk for pij in pab for pk in pc]`. -/
def priIdx (order : ℕ) : List (ℕ × ℕ × ℕ) :=
  (List.range order).flatMap (fun (i : ℕ) =>
    (List.range (order - i)).flatMap (fun (j : ℕ) =>
      (List.range order).map (fun (k : ℕ) => (i, j, k))))

/-- Body of `PriPolyBasis.ortho_basis_at_mp` after the collapsed coordinate
`a` is fixed (src lines 229-244, with `b = q`, `c = r`). -/
def priBody (order : ℕ) (a b c : R) : List R :=
  let pab := (List.range order).flatMap (fun (i : ℕ) =>
    let ci := (1 - b) ^ i / 2 ^ (i + 1)
    (List.range (order - i)).map (fun (j : ℕ) =>
      let cij := sq ((2 * (i : R) + 1) * (2 * (i : R) + 2 * (j : R) + 2)) * ci
      cij * jacobiP 0 0 a i * jacobiP (2 * (i : R) + 1) 0 b j))
  let pc := (List.range order).map (fun (k : ℕ) =>
    sq ((k : R) + 1/2) * jacobiP 0 0 c k)
  pab.flatMap (fun pij => pc.map (fun pk => pij * pk))

/-- `PriPolyBasis.ortho_basis_at_mp` (src lines 227-244); the collapsed
coordinate (src line 228) is the same map as the Tri one (`triA`). -/
def priMp (order : ℕ) (p q r : R) : List R :=
  priBody sq order (triA p q) q r

/-- Body of `PriPolyBasis.jac_ortho_basis_at_mp` after the collapsed
coordinate is fixed (src lines 249-275, with `b = q`, `c = r`). -/
def priJacBody (order : ℕ) (a b c : R) : List (List R) :=
  let pab := (List.range order).flatMap (fun (i : ℕ) =>
    let fi := jacobiP 0 0 a i
    let dfi := jacobiDP 0 0 a i
    (List.range (order - i)).map (fun (j : ℕ) =>
      let gj := jacobiP (2 * (i : R) + 1) 0 b j
      let dgj := jacobiDP (2 * (i : R) + 1) 0 b j
      let cij := sq ((2 * (i : R) + 1) * (2 * (i : R) + 2 * (j : R) + 2)) / 2 ^ (i + 1)
      let tmp := if 0 < i then (1 - b) ^ (i - 1) else 1
      let pij := 2 * tmp * dfi * gj
      let qij := tmp * (-(i : R) * fi + (1 + a) * dfi) * gj + (1 - b) ^ i * fi * dgj
      let rij := (1 - b) ^ i * fi * gj
      (cij * pij, cij * qij, cij * rij)))
  let hc := (List.range order).map (fun (k : ℕ) =>
    sq ((k : R) + 1/2) * jacobiP 0 0 c k)
  let dhc := (List.range order).map (fun (k : ℕ) =>
    sq ((k : R) + 1/2) * jacobiDP 0 0 c k)
  pab.flatMap (fun pqr =>
    (hc.zip dhc).map (fun hd =>
      [pqr.1 * hd.1, pqr.2.1 * hd.1, pqr.2.2 * hd.2]))

/-- `PriPolyBasis.jac_ortho_basis_at_mp` (src lines 246-275). -/
def priJacMp (order : ℕ) (p q r : R) : List (List R) :=
  priJacBody sq order (triA p q) q r

/-- `PriPolyBasis.degrees` (src lines 277-282). -/
def priDegrees (order : ℕ) : List ℕ :=
  (List.range order).flatMap (fun (i : ℕ) =>
    (List.range (order - i)).flatMap (fun (j : ℕ) =>
      (List.range order).map (fun (k : ℕ) => i + j + k)))

/-! ## Pyr (`PyrPolyBasis`, src lines 285-352) -/

/-- Index trace of the nested loops of `PyrPolyBasis.ortho_basis_at_mp`
(src lines 298-310): `i`, `j` over `pa`, `pb` (length `order` each), inner
`k` over `jacobi(order - max(i, j) - 1, ...)` (length `order - max(i, j)`). -/
def pyrIdx (order : ℕ) : List (ℕ × ℕ × ℕ) :=
  (List.range order).flatMap (fun (i : ℕ) =>
    (List.range order).flatMap (fun (j : ℕ) =>
      (List.range (order - max i j)).map (fun (k : ℕ) => (i, j, k))))

/-- The first Pyr collapsed coordinate (src line 289):
`a = 2*p/(1 - r) if r != 1 else 0`. -/
def pyrA (p r : R) : R :=
  if r ≠ 1 then 2 * p / (1 - r) else 0

/-- The second Pyr collapsed coordinate (src line 290):
`b = 2*q/(1 - r) if r != 1 else 0`. -/
def pyrB (q r : R) : R :=
  if r ≠ 1 then 2 * q / (1 - r) else 0

/-- The scale `sk[k] = mp.mpf(2)**(-k - 0.25)*mp.sqrt(k + 0.5)` of
`PyrPolyBasis` (src lines 293-294); the fractional power is written as
`2^(-k) / sqrt(sqrt 2)` since `2^0.25 = √√2`. -/
def pyrSk (k : ℕ) : R :=
  (2 : R) ^ (-(k : ℤ)) / sq (sq 2) * sq ((k : R) + 1/2)

/-- Body of `PyrPolyBasis.ortho_basis_at_mp` after the collapsed coordinates
`a`, `b` are fixed (src lines 291-310, with `c = r`). -/
def pyrBody (order : ℕ) (a b c : R) : List R :=
  (List.range order).flatMap (fun (i : ℕ) =>
    let pi_ := pyrSk sq i * jacobiP 0 0 a i
    (List.range order).flatMap (fun (j : ℕ) =>
      let pj := pyrSk sq j * jacobiP 0 0 b j
      let cij := (1 - c) ^ (i + j)
      let pij := pi_ * pj
      (List.range (order - max i j)).map (fun (k : ℕ) =>
        let ck := sq (2 * ((k : R) + (j : R) + (i : R)) + 3)
        cij * ck * pij * jacobiP (2 * ((i : R) + (j : R) + 1)) 0 c k)))

/-- `PyrPolyBasis.ortho_basis_at_mp` (src lines 288-310). -/
def pyrMp (order : ℕ) (p q r : R) : List R :=
  pyrBody sq order (pyrA p r) (pyrB q r) r

/-- Body of `PyrPolyBasis.jac_ortho_basis_at_mp` after the collapsed
coordinates are fixed (src lines 315-345, with `c = r`). -/
def pyrJacBody (order : ℕ) (a b c : R) : List (List R) :=
  (List.range order).flatMap (fun (i : ℕ) =>
    let fi := pyrSk sq i * jacobiP 0 0 a i
    let dfi := pyrSk sq i * jacobiDP 0 0 a i
    (List.range order).flatMap (fun (j : ℕ) =>
      let gj := pyrSk sq j * jacobiP 0 0 b j
      let dgj := pyrSk sq j * jacobiDP 0 0 b j
      (List.range (order - max i j)).map (fun (k : ℕ) =>
        let hk := jacobiP (2 * ((i : R) + (j : R) + 1)) 0 c k
        let dhk := jacobiDP (2 * ((i : R) + (j : R) + 1)) 0 c k
        let ck := sq (2 * ((k : R) + (j : R) + (i : R)) + 3)
        let tmp := if 0 < i + j then (1 - c) ^ (i + j - 1) else 1
        let pijk := 2 * tmp * dfi * gj * hk
        let qijk := 2 * tmp * fi * dgj * hk
        let rijk := tmp * (a * dfi * gj + b * fi * dgj - ((i : R) + (j : R)) * fi * gj) * hk
            + (1 - c) ^ (i + j) * fi * gj * dhk
        [ck * pijk, ck * qijk, ck * rijk])))

/-- `PyrPolyBasis.jac_ortho_basis_at_mp` (src lines 312-345). -/
def pyrJacMp (order : ℕ) (p q r : R) : List (List R) :=
  pyrJacBody sq order (pyrA p r) (pyrB q r) r

/-- `PyrPolyBasis.degrees` (src lines 347-352). -/
def pyrDegrees (order : ℕ) : List ℕ :=
  (List.range order).flatMap (fun (i : ℕ) =>
    (List.range order).flatMap (fun (j : ℕ) =>
      (List.range (order - max i j)).map (fun (k : ℕ) => i + j + k)))

/-! ## Hex (`HexPolyBasis`, src lines 355-385) -/

/-- Index trace of `HexPolyBasis.ortho_basis_at_mp` (src line 364). -/
def hexIdx (order : ℕ) : List (ℕ × ℕ × ℕ) :=
  (List.range order).flatMap (fun (i : ℕ) =>
    (List.range order).flatMap (fun (j : ℕ) =>
      (List.range order).map (fun (k : ℕ) => (i, j, k))))

/-- `HexPolyBasis.ortho_basis_at_mp` (src lines 358-364). -/
def hexMp (order : ℕ) (p q r : R) : List R :=
  (List.range order).flatMap (fun (i : ℕ) =>
    (List.range order).flatMap (fun (j : ℕ) =>
      (List.range order).map (fun (k : ℕ) =>
        (sq ((i : R) + 1/2) * jacobiP 0 0 p i) * (sq ((j : R) + 1/2) * jacobiP 0 0 q j)
          * (sq ((k : R) + 1/2) * jacobiP 0 0 r k))))

/-- `HexPolyBasis.jac_ortho_basis_at_mp` (src lines 366-379). -/
def hexJacMp (order : ℕ) (p q r : R) : List (List R) :=
  (List.range order).flatMap (fun (i : ℕ) =>
    (List.range order).flatMap (fun (j : ℕ) =>
      (List.range order).map (fun (k : ℕ) =>
        let pi_ := sq ((i : R) + 1/2) * jacobiP 0 0 p i
        let dpi := sq ((i : R) + 1/2) * jacobiDP 0 0 p i
        let pj := sq ((j : R) + 1/2) * jacobiP 0 0 q j
        let dpj := sq ((j : R) + 1/2) * jacobiDP 0 0 q j
        let pk := sq ((k : R) + 1/2) * jacobiP 0 0 r k
        let dpk := sq ((k : R) + 1/2) * jacobiDP 0 0 r k
        [dpi * pj * pk, pi_ * dpj * pk, pi_ * pj * dpk])))

/-- `HexPolyBasis.degrees` (src lines 381-385). -/
def hexDegrees (order : ℕ) : List ℕ :=
  (List.range order).flatMap (fun (i : ℕ) =>
    (List.range order).flatMap (fun (j : ℕ) =>
      (List.range order).map (fun (k : ℕ) => i + j + k)))

/-! ## Division-checked collapsed coordinates

The collapse maps above substitute a fixed limiting value at the boundary
inputs where their denominator vanishes.  To state that the division branch
never divides by zero, the same expressions are repeated here with every
division routed through `cdiv`, which fails on a zero denominator. -/

/-- Checked division: `none` exactly when the denominator is zero. -/
def cdiv (x y : R) : Option R :=
  if y = 0 then none else some (x / y)

/-- `triA` (src line 77) with its division checked. -/
def triAC (p q : R) : Option R :=
  if q ≠ 1 then (cdiv (2 * (1 + p)) (1 - q)).map (fun t => t - 1) else some (-1)

/-- `tetA` (src line 153) with its division checked. -/
def tetAC (p q r : R) : Option R :=
  if r ≠ -q then (cdiv (-2 * (1 + p)) (q + r)).map (fun t => t - 1) else some (-1)

/-- `tetB` (src line 154) with its division checked. -/
def tetBC (q r : R) : Option R :=
  if r ≠ 1 then (cdiv (2 * (1 + q)) (1 - r)).map (fun t => t - 1) else some (-1)

/-- `pyrA` (src line 289) with its division checked. -/
def pyrAC (p r : R) : Option R :=
  if r ≠ 1 then cdiv (2 * p) (1 - r) else some 0

/-- `pyrB` (src line 290) with its division checked. -/
def pyrBC (q r : R) : Option R :=
  if r ≠ 1 then cdiv (2 * q) (1 - r) else some 0

/-- `TriPolyBasis.ortho_basis_at_mp` with the collapse division checked. -/
def triMpC (order : ℕ) (p q : R) : Option (List R) :=
  (triAC p q).map (fun a => triBody sq order a q)

/-- `TriPolyBasis.jac_ortho_basis_at_mp` with the collapse division checked. -/
def triJacMpC (order : ℕ) (p q : R) : Option (List (List R)) :=
  (triAC p q).map (fun a => triJacBody sq order a q)

/-- `TetPolyBasis.ortho_basis_at_mp` with the collapse divisions checked. -/
def tetMpC (order : ℕ) (p q r : R) : Option (List R) :=
  (tetAC p q r).bind (fun a => (tetBC q r).map (fun b => tetBody sq order a b r))

/-- `TetPolyBasis.jac_ortho_basis_at_mp` with the collapse divisions checked. -/
def tetJacMpC (order : ℕ) (p q r : R) : Option (List (List R)) :=
  (tetAC p q r).bind (fun a => (tetBC q r).map (fun b => tetJacBody sq order a b r))

/-- `PriPolyBasis.ortho_basis_at_mp` with the collapse division checked. -/
def priMpC (order : ℕ) (p q r : R) : Option (List R) :=
  (triAC p q).map (fun a => priBody sq order a q r)

/-- `PriPolyBasis.jac_ortho_basis_at_mp` with the collapse division checked. -/
def priJacMpC (order : ℕ) (p q r : R) : Option (List (List R)) :=
  (triAC p q).map (fun a => priJacBody sq order a q r)

/-- `PyrPolyBasis.ortho_basis_at_mp` with the collapse divisions checked. -/
def pyrMpC (order : ℕ) (p q r : R) : Option (List R) :=
  (pyrAC p r).bind (fun a => (pyrBC q r).map (fun b => pyrBody sq order a b r))

/-- `PyrPolyBasis.jac_ortho_basis_at_mp` with the collapse divisions checked. -/
def pyrJacMpC (order : ℕ) (p q r : R) : Option (List (List R)) :=
  (pyrAC p r).bind (fun a => (pyrBC q r).map (fun b => pyrJacBody sq order a b r))

/-! ## Shared batch-evaluation layer (`BasePolyBasis`, src lines 17-54)

A point type `P` stands for the per-shape coordinate tuple; the per-point
generator is passed as a function `f`.  The scalar-to-1-tuple promotion of
src lines 26-27/36-37 is a normalization of untyped input and is modelled
separately (`promotePts` below). -/

/-- Row length of the first row: the column count `np.array` gives a
rectangular nested list. -/
def headLen {α : Type} (L : List (List α)) : ℕ :=
  (L.headD []).length

/-- `np.array(P).T` for a rectangular list of rows `P`: entry `(i, k)` of the
result is entry `(k, i)` of the input; an empty input stays a (1-D) empty
array, which transposes to itself. -/
def transposeLL (L : List (List R)) : List (List R) :=
  (List.range (headLen L)).map (fun (i : ℕ) => L.map (fun row => row.getD i 0))

/-- `BasePolyBasis.ortho_basis_at` (src lines 24-32) on typed points:
evaluate the per-point generator at every point and transpose, so rows are
basis functions and columns are points. -/
def orthoBasisAt {P : Type} (f : P → List R) (epts : List P) : List (List R) :=
  transposeLL (epts.map f)

/-- `BasePolyBasis.vdm` (src lines 52-54): `self.ortho_basis_at(self.pts)`,
computed once and cached (caching is invisible to a pure embedding). -/
def vdmOf {P : Type} (f : P → List R) (pts : List P) : List (List R) :=
  orthoBasisAt f pts

/-- `J.swapaxes(0, 2)` (src line 42) on a rectangular 3-D nested list:
entry `(a, b, p)` of the result is entry `(p, b, a)` of the input. -/
def swapaxes02 (J : List (List (List R))) : List (List (List R)) :=
  (List.range (headLen (J.headD []))).map (fun (a : ℕ) =>
    (List.range (headLen J)).map (fun (b : ℕ) =>
      (List.range J.length).map (fun (p : ℕ) =>
        ((J.getD p []).getD b []).getD a 0)))

/-- `BasePolyBasis.jac_ortho_basis_at` (src lines 34-42) on typed points. -/
def jacOrthoBasisAt {P : Type} (f : P → List (List R)) (epts : List P) :
    List (List (List R)) :=
  swapaxes02 (epts.map f)

/-- Entry `(i, j)` of a nested list, 0 outside. -/
def entry (A : List (List R)) (i j : ℕ) : R :=
  (A.getD i []).getD j 0

/-- A nested list read as a square matrix of its own row count. -/
def sqOf (A : List (List R)) : Matrix (Fin A.length) (Fin A.length) R :=
  Matrix.of (fun i j => (A.get i).getD (j : ℕ) 0)

/-- Entry `(i, k)` of the exact inverse `det⁻¹ • adjugate` of the square
reading of `A`, 0 outside. -/
def invE (A : List (List R)) (i k : ℕ) : R :=
  if h : i < A.length ∧ k < A.length then
    (((sqOf A).det)⁻¹ • (sqOf A).adjugate) ⟨i, h.1⟩ ⟨k, h.2⟩ else 0

/-- An `n × m` nested list built from an entry function. -/
def ofMatL (n m : ℕ) (g : ℕ → ℕ → R) : List (List R) :=
  (List.range n).map (fun (i : ℕ) => (List.range m).map (fun (j : ℕ) => g i j))

/-- The `n × n` identity as a nested list. -/
def identityL (n : ℕ) : List (List R) :=
  ofMatL n n (fun i j => if i = j then 1 else 0)

/-- Modelled from the spec (§4.4, §7; `np.linalg.solve` is external): the
exact solve `A⁻¹ ⬝ B`, computed through the adjugate.  It fails — `none`,
standing for the `LinAlgError` the solver raises — unless `A` is a nonempty
square matrix with nonzero determinant and `B` has `A`'s row count.  (An
empty `A`, as produced by an empty defining point set, is a 1-D array in the
source and is likewise rejected by the solver.) -/
def npSolve (A B : List (List R)) : Option (List (List R)) :=
  if A ≠ [] ∧ (∀ r ∈ A, r.length = A.length) ∧ B.length = A.length
      ∧ (sqOf A).det ≠ 0 then
    some (ofMatL A.length (headLen B) (fun i j =>
      ∑ k ∈ Finset.range A.length, invE A i k * entry B k j))
  else none

/-- `BasePolyBasis.nodal_basis_at` (src lines 44-46):
`np.linalg.solve(self.vdm, self.ortho_basis_at(epts)).T`. -/
def nodalBasisAt {P : Type} (f : P → List R) (pts epts : List P) :
    Option (List (List R)) :=
  (npSolve (vdmOf f pts) (orthoBasisAt f epts)).map transposeLL

/-- `np.linalg.solve` with a 3-D right-hand side, broadcast over the leading
axis as numpy does (modelled from the spec like `npSolve`). -/
def npSolve3 (A : List (List R)) (B3 : List (List (List R))) :
    Option (List (List (List R))) :=
  if A ≠ [] ∧ (∀ r ∈ A, r.length = A.length) ∧ (∀ s ∈ B3, s.length = A.length)
      ∧ (sqOf A).det ≠ 0 then
    some (B3.map (fun s => ofMatL A.length (headLen s) (fun i j =>
      ∑ k ∈ Finset.range A.length, invE A i k * entry s k j)))
  else none

/-- `BasePolyBasis.jac_nodal_basis_at` (src lines 48-50):
`np.linalg.solve(self.vdm, self.jac_ortho_basis_at(epts))`. -/
def jacNodalBasisAt {P : Type} (fv : P → List R) (fj : P → List (List R))
    (pts epts : List P) : Option (List (List (List R))) :=
  npSolve3 (vdmOf fv pts) (jacOrthoBasisAt fj epts)

end Polys

namespace Polys

/-! ## Factory (`get_polybasis`, src lines 13-14) -/

/-- The seven registered subclasses of `BasePolyBasis`, by their `name`
class attributes (src lines 58, 74, 123, 150, 225, 286, 356). -/
inductive ShapeKind where
  | line | tri | quad | tet | pri | pyr | hex
deriving DecidableEq

/-- The `name` class attribute of each subclass. -/
def shapeName : ShapeKind → String
  | .line => "line"
  | .tri => "tri"
  | .quad => "quad"
  | .tet => "tet"
  | .pri => "pri"
  | .pyr => "pyr"
  | .hex => "hex"

/-- The subclass registry walked by `subclass_where`. -/
def registry : List ShapeKind :=
  [.line, .tri, .quad, .tet, .pri, .pyr, .hex]

/-- Modelled from the spec (§6; `pyfr.util.subclass_where` is not under
`src/`): resolve the `BasePolyBasis` subclass whose `name` attribute equals
the given name; an unknown name is a lookup error (`none`), with no object
constructed. -/
def subclassWhere (name : String) : Option ShapeKind :=
  registry.find? (fun k => shapeName k = name)

/-- A constructed basis object: `BasePolyBasis.__init__` (src lines 20-22)
just stores `order` and `pts`. -/
structure PolyBasisInst (Pt : Type) where
  shape : ShapeKind
  order : ℕ
  pts : List Pt
deriving DecidableEq

/-- `get_polybasis` (src lines 13-14):
`subclass_where(BasePolyBasis, name=name)(order, pts)`, with `pts=[]` as the
default argument. -/
def get_polybasis {Pt : Type} (name : String) (order : ℕ)
    (pts : List Pt := []) : Option (PolyBasisInst Pt) :=
  (subclassWhere name).map (fun k => ⟨k, order, pts⟩)

/-! ## Untyped evaluation points and scalar promotion (src lines 26-27) -/

/-- An untyped Python evaluation point: a scalar or a (possibly nested)
tuple, as seen by the `isinstance(pts[0], Iterable)` test. -/
inductive PyVal (R : Type) where
  | scalar (x : R)
  | tup (xs : List (PyVal R))

/-- `isinstance(·, Iterable)`: tuples are iterable, scalars are not. -/
def isIter {R : Type} : PyVal R → Bool
  | .scalar _ => false
  | .tup _ => true

/-- The scalar-promotion step shared by `ortho_basis_at` and
`jac_ortho_basis_at` (src lines 26-27 and 36-37):
`if len(pts) and not isinstance(pts[0], Iterable): pts = [(p,) for p in pts]`.
Note the comprehension wraps every element, whatever its own shape. -/
def promotePts {R : Type} (pts : List (PyVal R)) : List (PyVal R) :=
  if pts.length ≠ 0 ∧ isIter (pts.headD (.tup [])) = false then
    pts.map (fun p => .tup [p])
  else pts


/-! ## Structural lemmas about the shared layer -/

variable {R : Type} [Field R] [DecidableEq R]

lemma getD_range_map {α : Type} {n i : ℕ} (h : i < n) (g : ℕ → α) (d : α) :
    ((List.range n).map g).getD i d = g i := by
  simp [List.getD_eq_getElem?_getD, List.getElem?_map, List.getElem?_range h]

lemma getD_map_of_lt {α β : Type} (f : α → β) {l : List α} {p : ℕ}
    (hp : p < l.length) (d : β) :
    (l.map f).getD p d = f (l.get ⟨p, hp⟩) := by
  simp [List.getD_eq_getElem?_getD, List.getElem?_map, List.getElem?_eq_getElem hp,
    List.get_eq_getElem]

lemma length_transposeLL (L : List (List R)) :
    (transposeLL L).length = headLen L := by
  simp [transposeLL]

lemma mem_transposeLL_length (L : List (List R)) :
    ∀ row ∈ transposeLL L, row.length = L.length := by
  intro row hrow
  simp only [transposeLL, List.mem_map, List.mem_range] at hrow
  obtain ⟨i, -, rfl⟩ := hrow
  simp

lemma getD_transposeLL (L : List (List R)) {i : ℕ} (hi : i < headLen L) :
    (transposeLL L).getD i [] = L.map (fun row => row.getD i 0) := by
  unfold transposeLL
  exact getD_range_map hi _ []

lemma entry_transposeLL (L : List (List R)) {i k : ℕ}
    (hi : i < headLen L) (hk : k < L.length) :
    entry (transposeLL L) i k = entry L k i := by
  rw [entry, getD_transposeLL L hi, getD_map_of_lt _ hk, entry,
    List.getD_eq_getElem L [] hk, List.get_eq_getElem]

lemma length_ofMatL (n m : ℕ) (g : ℕ → ℕ → R) :
    (ofMatL n m g).length = n := by
  simp [ofMatL]

lemma getD_ofMatL {n : ℕ} (m : ℕ) (g : ℕ → ℕ → R) {i : ℕ} (hi : i < n) :
    (ofMatL n m g).getD i [] = (List.range m).map (g i) := by
  unfold ofMatL
  exact getD_range_map hi _ []

lemma entry_ofMatL (g : ℕ → ℕ → R) {n m i j : ℕ} (hi : i < n) (hj : j < m) :
    entry (ofMatL n m g) i j = g i j := by
  rw [entry, getD_ofMatL m g hi]
  exact getD_range_map hj _ 0

lemma ofMatL_congr {n m : ℕ} {g h : ℕ → ℕ → R}
    (H : ∀ i < n, ∀ j < m, g i j = h i j) :
    ofMatL n m g = ofMatL n m h := by
  unfold ofMatL
  refine List.map_congr_left (fun i hi => List.map_congr_left (fun j hj => ?_))
  exact H i (List.mem_range.1 hi) j (List.mem_range.1 hj)

lemma headLen_ofMatL {n : ℕ} (m : ℕ) (g : ℕ → ℕ → R) (hn : 0 < n) :
    headLen (ofMatL n m g) = m := by
  cases n with
  | zero => exact absurd hn (by simp)
  | succ k =>
      unfold ofMatL headLen
      rw [List.range_succ_eq_map]
      simp

lemma transposeLL_ofMatL {n : ℕ} (m : ℕ) (g : ℕ → ℕ → R) (hn : 0 < n) :
    transposeLL (ofMatL n m g) = ofMatL m n (fun j i => g i j) := by
  unfold transposeLL
  rw [headLen_ofMatL m g hn]
  unfold ofMatL
  refine List.map_congr_left (fun j hj => ?_)
  rw [List.map_map]
  refine List.map_congr_left (fun i _ => ?_)
  exact getD_range_map (List.mem_range.1 hj) (g i) 0

lemma transposeLL_identityL (m : ℕ) :
    transposeLL (identityL (R := R) m) = identityL m := by
  cases Nat.eq_zero_or_pos m with
  | inl h => subst h; rfl
  | inr h =>
      rw [identityL, transposeLL_ofMatL m _ h]
      exact ofMatL_congr (fun i _ j _ => by simp [eq_comm])

lemma headLen_eq_of_sq {A : List (List R)} (hne : A ≠ [])
    (hsq : ∀ r ∈ A, r.length = A.length) : headLen A = A.length := by
  cases A with
  | nil => exact absurd rfl hne
  | cons a t => simpa [headLen] using hsq a (by simp)

/-- `np.linalg.solve(V, V)` is the identity for a nonempty square
nonsingular `V`. -/
lemma npSolve_self (A : List (List R)) (hne : A ≠ [])
    (hsq : ∀ r ∈ A, r.length = A.length) (hdet : (sqOf A).det ≠ 0) :
    npSolve A A = some (identityL A.length) := by
  unfold npSolve
  rw [if_pos ⟨hne, hsq, rfl, hdet⟩, headLen_eq_of_sq hne hsq]
  refine congrArg some ?_
  rw [identityL]
  refine ofMatL_congr (fun i hi j hj => ?_)
  have hstep : ∑ k ∈ Finset.range A.length, invE A i k * entry A k j
      = ∑ k : Fin A.length,
          ((((sqOf A).det)⁻¹ • (sqOf A).adjugate) ⟨i, hi⟩ k * sqOf A k ⟨j, hj⟩) := by
    rw [← Fin.sum_univ_eq_sum_range]
    refine Finset.sum_congr rfl (fun k _ => ?_)
    rw [invE, dif_pos ⟨hi, k.2⟩]
    congr 1
    rw [entry, sqOf, List.getD_eq_getElem A [] k.2]
    rfl
  have hmul : (((sqOf A).det)⁻¹ • (sqOf A).adjugate) * sqOf A = 1 := by
    rw [Matrix.smul_mul, Matrix.adjugate_mul, smul_smul, inv_mul_cancel₀ hdet, one_smul]
  rw [hstep, ← Matrix.mul_apply, hmul, Matrix.one_apply]
  simp [Fin.mk.injEq]

end Polys

namespace Polys

variable {R : Type} [Field R] [DecidableEq R]

/-! ## Claims -/

/-- Core of C1 and of the corrected C6: `nodal_basis_at` at the basis's own
square nonsingular point set is the identity. -/
lemma nodalBasisAt_self {P : Type} (f : P → List R) (pts : List P)
    (hne : vdmOf f pts ≠ [])
    (hsq : ∀ r ∈ vdmOf f pts, r.length = (vdmOf f pts).length)
    (hdet : (sqOf (vdmOf f pts)).det ≠ 0) :
    nodalBasisAt f pts pts = some (identityL pts.length) := by
  have hrow : ∀ r ∈ vdmOf f pts, r.length = pts.length := by
    intro r hr
    have := mem_transposeLL_length (pts.map f) r hr
    simpa using this
  have hn : (vdmOf f pts).length = pts.length := by
    obtain ⟨a, ha⟩ := List.exists_mem_of_ne_nil _ hne
    rw [← hsq a ha, hrow a ha]
  unfold nodalBasisAt
  rw [show orthoBasisAt f pts = vdmOf f pts from rfl,
    npSolve_self _ hne hsq hdet, hn]
  simp [transposeLL_identityL]

/-- C1: for every basis instance whose defining point set `S` makes the
cached Vandermonde matrix square and nonsingular, `nodal_basis_at(S)` — the
nodal basis evaluated at the basis's own defining points — is the identity
matrix: entry `[k, i]` is 1 when `k = i` and 0 otherwise (exactly, in the
exact-arithmetic embedding; "within tolerance" in floating point). -/
theorem nodal_basis_at_self_is_identity {P : Type} (f : P → List R) (pts : List P)
    (hne : vdmOf f pts ≠ [])
    (hsq : ∀ r ∈ vdmOf f pts, r.length = (vdmOf f pts).length)
    (hdet : (sqOf (vdmOf f pts)).det ≠ 0) :
    nodalBasisAt f pts pts = some (identityL pts.length) :=
  nodalBasisAt_self f pts hne hsq hdet

/-- Witness for C1 at a concrete square nonsingular instance over `ℚ`. -/
theorem nodal_basis_at_self_is_identity_witness :
    nodalBasisAt (R := ℚ) (fun x : ℚ => [1, x]) [3, 4] [3, 4]
      = some (identityL 2) := by
  refine nodal_basis_at_self_is_identity (fun x : ℚ => [1, x]) [3, 4]
    (by decide) (by decide) ?_
  show (sqOf [[1, 1], [3, 4]]).det ≠ 0
  rw [Matrix.det_fin_two]
  norm_num [sqOf]

lemma triAC_eq (p q : R) : triAC p q = some (triA p q) := by
  unfold triAC triA cdiv
  by_cases h : q = 1
  · simp [h]
  · have h2 : (1 : R) - q ≠ 0 := sub_ne_zero.mpr (Ne.symm h)
    simp [h, h2]

lemma tetAC_eq (p q r : R) : tetAC p q r = some (tetA p q r) := by
  unfold tetAC tetA cdiv
  by_cases h : r = -q
  · simp [h]
  · have h2 : q + r ≠ 0 := fun hqr => h (by linear_combination hqr)
    simp [h, h2]

lemma tetBC_eq (q r : R) : tetBC q r = some (tetB q r) := by
  unfold tetBC tetB cdiv
  by_cases h : r = 1
  · simp [h]
  · have h2 : (1 : R) - r ≠ 0 := sub_ne_zero.mpr (Ne.symm h)
    simp [h, h2]

lemma pyrAC_eq (p r : R) : pyrAC p r = some (pyrA p r) := by
  unfold pyrAC pyrA cdiv
  by_cases h : r = 1
  · simp [h]
  · have h2 : (1 : R) - r ≠ 0 := sub_ne_zero.mpr (Ne.symm h)
    simp [h, h2]

lemma pyrBC_eq (q r : R) : pyrBC q r = some (pyrB q r) := by
  unfold pyrBC pyrB cdiv
  by_cases h : r = 1
  · simp [h]
  · have h2 : (1 : R) - r ≠ 0 := sub_ne_zero.mpr (Ne.symm h)
    simp [h, h2]

lemma length_flatMap_congr {α β γ : Type} {l : List α} {f : α → List β}
    {g : α → List γ} (h : ∀ x ∈ l, (f x).length = (g x).length) :
    (l.flatMap f).length = (l.flatMap g).length := by
  simp only [List.length_flatMap]
  exact congrArg List.sum (List.map_congr_left fun x hx => by
    simp [Function.comp_def, h x hx])

lemma sum_map_const_nat {α : Type} (l : List α) (c : ℕ) :
    (l.map (fun _ => c)).sum = l.length * c := by
  induction l with
  | nil => simp
  | cons x t ih => simp [ih, Nat.succ_mul, Nat.add_comm]

lemma length_flatMap_const {α β : Type} (l : List α) (f : α → List β) (c : ℕ)
    (h : ∀ x ∈ l, (f x).length = c) : (l.flatMap f).length = l.length * c := by
  rw [List.length_flatMap,
    List.map_congr_left (fun x hx => by simp [Function.comp_def, h x hx] :
      ∀ x ∈ l, (List.length ∘ f) x = (fun _ => c) x)]
  exact sum_map_const_nat l c

lemma priIdx_length_aux (order : ℕ) :
    ((List.range order).flatMap (fun (i : ℕ) =>
      (List.range (order - i)).flatMap (fun (j : ℕ) =>
        (List.range order).map (fun (k : ℕ) => (i, j, k))))).length
      = (((List.range order).map (fun (i : ℕ) => order - i)).sum) * order := by
  rw [← List.sum_map_mul_right, List.length_flatMap]
  refine congrArg List.sum (List.map_congr_left fun i _ => ?_)
  simp only [Function.comp_def]
  rw [length_flatMap_const _ _ order (fun j _ => by simp)]
  simp

lemma triBody_length (sq : R → R) (order : ℕ) (a b : R) :
    (triBody sq order a b).length = (triIdx order).length := by
  unfold triBody triIdx
  exact length_flatMap_congr (fun i _ => by simp)

lemma triJacBody_length (sq : R → R) (order : ℕ) (a b : R) :
    (triJacBody sq order a b).length = (triIdx order).length := by
  unfold triJacBody triIdx
  exact length_flatMap_congr (fun i _ => by simp)

lemma quadMp_length (sq : R → R) (order : ℕ) (p q : R) :
    (quadMp sq order p q).length = (quadIdx order).length := by
  unfold quadMp quadIdx
  exact length_flatMap_congr (fun i _ => by simp)

lemma quadJacMp_length (sq : R → R) (order : ℕ) (p q : R) :
    (quadJacMp sq order p q).length = (quadIdx order).length := by
  unfold quadJacMp quadIdx
  exact length_flatMap_congr (fun i _ => by simp)

lemma tetBody_length (sq : R → R) (order : ℕ) (a b c : R) :
    (tetBody sq order a b c).length = (tetIdx order).length := by
  unfold tetBody tetIdx
  exact length_flatMap_congr (fun i _ => length_flatMap_congr (fun j _ => by simp))

lemma tetJacBody_length (sq : R → R) (order : ℕ) (a b c : R) :
    (tetJacBody sq order a b c).length = (tetIdx order).length := by
  unfold tetJacBody tetIdx
  exact length_flatMap_congr (fun i _ => length_flatMap_congr (fun j _ => by simp))

lemma priBody_length (sq : R → R) (order : ℕ) (a b c : R) :
    (priBody sq order a b c).length = (priIdx order).length := by
  simp only [priBody, priIdx]
  rw [length_flatMap_const _ _ order (fun x _ => by simp), priIdx_length_aux]
  refine congrArg (· * order) ?_
  rw [List.length_flatMap]
  refine congrArg List.sum (List.map_congr_left fun i _ => ?_)
  simp [Function.comp_def]

lemma priJacBody_length (sq : R → R) (order : ℕ) (a b c : R) :
    (priJacBody sq order a b c).length = (priIdx order).length := by
  simp only [priJacBody, priIdx]
  rw [length_flatMap_const _ _ order (fun x _ => by simp), priIdx_length_aux]
  refine congrArg (· * order) ?_
  rw [List.length_flatMap]
  refine congrArg List.sum (List.map_congr_left fun i _ => ?_)
  simp [Function.comp_def]

lemma pyrBody_length (sq : R → R) (order : ℕ) (a b c : R) :
    (pyrBody sq order a b c).length = (pyrIdx order).length := by
  unfold pyrBody pyrIdx
  exact length_flatMap_congr (fun i _ => length_flatMap_congr (fun j _ => by simp))

lemma pyrJacBody_length (sq : R → R) (order : ℕ) (a b c : R) :
    (pyrJacBody sq order a b c).length = (pyrIdx order).length := by
  unfold pyrJacBody pyrIdx
  exact length_flatMap_congr (fun i _ => length_flatMap_congr (fun j _ => by simp))

lemma hexMp_length (sq : R → R) (order : ℕ) (p q r : R) :
    (hexMp sq order p q r).length = (hexIdx order).length := by
  unfold hexMp hexIdx
  exact length_flatMap_congr (fun i _ => length_flatMap_congr (fun j _ => by simp))

lemma hexJacMp_length (sq : R → R) (order : ℕ) (p q r : R) :
    (hexJacMp sq order p q r).length = (hexIdx order).length := by
  unfold hexJacMp hexIdx
  exact length_flatMap_congr (fun i _ => length_flatMap_congr (fun j _ => by simp))

/-- C3: for every one of the seven shapes and every order ≥ 1, `degrees` has
the same length as the sequence returned by `ortho_basis_at_mp` and by
`jac_ortho_basis_at_mp` at any point, and entry `i` of `degrees` is the total
polynomial degree of the index triple at the same nested-loop enumeration
position `i` of the basis generator (the `...Idx` lists are the index traces
of the generators' loops, and each generator has exactly one entry per index
in that order). -/
theorem degrees_align_with_basis (sq : R → R) (order : ℕ) (h : 1 ≤ order)
    (p q r : R) :
    (lineDegrees order = List.range order
      ∧ (lineMp sq order p).length = (lineDegrees order).length
      ∧ (lineJacMp sq order p).length = (lineDegrees order).length)
    ∧ (triDegrees order = (triIdx order).map (fun t => t.1 + t.2)
      ∧ (triMp sq order p q).length = (triDegrees order).length
      ∧ (triJacMp sq order p q).length = (triDegrees order).length)
    ∧ (quadDegrees order = (quadIdx order).map (fun t => t.1 + t.2)
      ∧ (quadMp sq order p q).length = (quadDegrees order).length
      ∧ (quadJacMp sq order p q).length = (quadDegrees order).length)
    ∧ (tetDegrees order = (tetIdx order).map (fun t => t.1 + t.2.1 + t.2.2)
      ∧ (tetMp sq order p q r).length = (tetDegrees order).length
      ∧ (tetJacMp sq order p q r).length = (tetDegrees order).length)
    ∧ (priDegrees order = (priIdx order).map (fun t => t.1 + t.2.1 + t.2.2)
      ∧ (priMp sq order p q r).length = (priDegrees order).length
      ∧ (priJacMp sq order p q r).length = (priDegrees order).length)
    ∧ (pyrDegrees order = (pyrIdx order).map (fun t => t.1 + t.2.1 + t.2.2)
      ∧ (pyrMp sq order p q r).length = (pyrDegrees order).length
      ∧ (pyrJacMp sq order p q r).length = (pyrDegrees order).length)
    ∧ (hexDegrees order = (hexIdx order).map (fun t => t.1 + t.2.1 + t.2.2)
      ∧ (hexMp sq order p q r).length = (hexDegrees order).length
      ∧ (hexJacMp sq order p q r).length = (hexDegrees order).length) := by
  have hTri : triDegrees order = (triIdx order).map (fun t => t.1 + t.2) := by
    simp [triDegrees, triIdx, List.map_flatMap, List.map_map, Function.comp_def]
  have hQuad : quadDegrees order = (quadIdx order).map (fun t => t.1 + t.2) := by
    simp [quadDegrees, quadIdx, List.map_flatMap, List.map_map, Function.comp_def]
  have hTet : tetDegrees order = (tetIdx order).map (fun t => t.1 + t.2.1 + t.2.2) := by
    simp [tetDegrees, tetIdx, List.map_flatMap, List.map_map, Function.comp_def]
  have hPri : priDegrees order = (priIdx order).map (fun t => t.1 + t.2.1 + t.2.2) := by
    simp [priDegrees, priIdx, List.map_flatMap, List.map_map, Function.comp_def]
  have hPyr : pyrDegrees order = (pyrIdx order).map (fun t => t.1 + t.2.1 + t.2.2) := by
    simp [pyrDegrees, pyrIdx, List.map_flatMap, List.map_map, Function.comp_def]
  have hHex : hexDegrees order = (hexIdx order).map (fun t => t.1 + t.2.1 + t.2.2) := by
    simp [hexDegrees, hexIdx, List.map_flatMap, List.map_map, Function.comp_def]
  refine ⟨⟨rfl, by simp [lineMp, lineDegrees], by simp [lineJacMp, lineDegrees]⟩,
    ⟨hTri, ?_, ?_⟩, ⟨hQuad, ?_, ?_⟩, ⟨hTet, ?_, ?_⟩, ⟨hPri, ?_, ?_⟩,
    ⟨hPyr, ?_, ?_⟩, ⟨hHex, ?_, ?_⟩⟩
  · rw [hTri, List.length_map]; exact triBody_length sq order (triA p q) q
  · rw [hTri, List.length_map]; exact triJacBody_length sq order (triA p q) q
  · rw [hQuad, List.length_map]; exact quadMp_length sq order p q
  · rw [hQuad, List.length_map]; exact quadJacMp_length sq order p q
  · rw [hTet, List.length_map]
    exact tetBody_length sq order (tetA p q r) (tetB q r) r
  · rw [hTet, List.length_map]
    exact tetJacBody_length sq order (tetA p q r) (tetB q r) r
  · rw [hPri, List.length_map]; exact priBody_length sq order (triA p q) q r
  · rw [hPri, List.length_map]; exact priJacBody_length sq order (triA p q) q r
  · rw [hPyr, List.length_map]
    exact pyrBody_length sq order (pyrA p r) (pyrB q r) r
  · rw [hPyr, List.length_map]
    exact pyrJacBody_length sq order (pyrA p r) (pyrB q r) r
  · rw [hHex, List.length_map]; exact hexMp_length sq order p q r
  · rw [hHex, List.length_map]; exact hexJacMp_length sq order p q r

/-- Witness for C3 at `order = 2` over `ℚ`. -/
theorem degrees_align_with_basis_witness :
    (1 : ℕ) ≤ 2
      ∧ (triMp (R := ℚ) id 2 0 0).length = (triDegrees 2).length
      ∧ (pyrJacMp (R := ℚ) id 2 0 0 0).length = (pyrDegrees 2).length :=
  ⟨by decide,
    ((degrees_align_with_basis (R := ℚ) id 2 (by decide) 0 0 0).2.1).2.1,
    ((degrees_align_with_basis (R := ℚ) id 2 (by decide) 0 0 0).2.2.2.2.2.1).2.2⟩

/-- C2: for every shape whose collapsed-coordinate map has a rational
denominator that can vanish on the reference element boundary (Tri and Pri at
`q = 1`, Tet at `r = 1` and at `r = -q`, Pyr at `r = 1`), both the value
function and the gradient function substitute the known limiting collapsed
coordinate at that exact input instead of dividing: the division-checked
variants (every collapse division routed through `cdiv`, which fails on a
zero denominator) never fail, and agree with the source functions, at every
input. -/
theorem collapse_division_safe (sq : R → R) (order : ℕ) (p q r : R) :
    triMpC sq order p q = some (triMp sq order p q)
      ∧ triJacMpC sq order p q = some (triJacMp sq order p q)
      ∧ tetMpC sq order p q r = some (tetMp sq order p q r)
      ∧ tetJacMpC sq order p q r = some (tetJacMp sq order p q r)
      ∧ priMpC sq order p q r = some (priMp sq order p q r)
      ∧ priJacMpC sq order p q r = some (priJacMp sq order p q r)
      ∧ pyrMpC sq order p q r = some (pyrMp sq order p q r)
      ∧ pyrJacMpC sq order p q r = some (pyrJacMp sq order p q r) := by
  refine ⟨?_, ?_, ?_, ?_, ?_, ?_, ?_, ?_⟩ <;>
    simp [triMpC, triMp, triJacMpC, triJacMp, tetMpC, tetMp, tetJacMpC,
      tetJacMp, priMpC, priMp, priJacMpC, priJacMp, pyrMpC, pyrMp, pyrJacMpC,
      pyrJacMp, triAC_eq, tetAC_eq, tetBC_eq, pyrAC_eq, pyrBC_eq]

end Polys

namespace Polys

variable {R : Type} [Field R] [DecidableEq R]

lemma headD_mem {α : Type} {l : List α} (h : l ≠ []) (d : α) : l.headD d ∈ l := by
  cases l with
  | nil => exact absurd rfl h
  | cons a t => simp

/-- C4 (amended): for every basis instance (with a per-axis gradient list of
positive basis count) and every non-empty list of evaluation points,
`jac_ortho_basis_at` returns a 3-D array whose axes are, in order,
`[axisIndex, basisIndex, pointIndex]` — the result of `swapaxes(0, 2)` on the
`[pointIndex, basisIndex, axisIndex]` stack — not `[basisIndex, axisIndex,
pointIndex]` as claimed. -/
theorem jac_ortho_basis_at_axes {P : Type} (f : P → List (List R))
    (epts : List P) (na nb : ℕ) (hne : epts ≠ []) (hnb : 0 < nb)
    (hb : ∀ pt ∈ epts, (f pt).length = nb)
    (ha : ∀ pt ∈ epts, ∀ row ∈ f pt, row.length = na) :
    (jacOrthoBasisAt f epts).length = na
      ∧ (∀ s ∈ jacOrthoBasisAt f epts, s.length = nb
          ∧ ∀ r2 ∈ s, r2.length = epts.length)
      ∧ ∀ a, a < na → ∀ b, b < nb → ∀ p, ∀ hp : p < epts.length,
          (((jacOrthoBasisAt f epts).getD a []).getD b []).getD p 0
            = ((f (epts.get ⟨p, hp⟩)).getD b []).getD a 0 := by
  obtain ⟨e, t, rfl⟩ := List.exists_cons_of_ne_nil hne
  have hfe : f e ∈ List.map f (e :: t) := by simp
  have hfene : f e ≠ [] := by
    intro hnil
    have hlen := hb e (by simp)
    rw [hnil] at hlen
    simp at hlen
    omega
  have hd1 : headLen (List.map f (e :: t)) = nb := by
    simpa [headLen] using hb e (by simp)
  have hd2 : headLen ((List.map f (e :: t)).headD []) = na := by
    have : (f e).headD [] ∈ f e := headD_mem hfene []
    simpa [headLen] using ha e (by simp) _ this
  refine ⟨?_, ?_, ?_⟩
  · simpa [jacOrthoBasisAt, swapaxes02] using hd2
  · intro s hs
    simp only [jacOrthoBasisAt, swapaxes02, List.mem_map, List.mem_range] at hs
    obtain ⟨a, -, rfl⟩ := hs
    constructor
    · simpa using hd1
    · intro r2 hr2
      simp only [List.mem_map, List.mem_range] at hr2
      obtain ⟨b, -, rfl⟩ := hr2
      simp
  · intro a haa b hbb p hp
    unfold jacOrthoBasisAt swapaxes02
    rw [getD_range_map (by rw [hd2]; exact haa) _ [],
      getD_range_map (by rw [hd1]; exact hbb) _ [],
      getD_range_map (by simpa using hp) _ 0,
      getD_map_of_lt f hp []]

/-- Counterexample for C4 as stated: for the Quad basis at order 1 the outer
axis of `jac_ortho_basis_at` has length 2 (the axis count), not 1 (the basis
count), so the outer axis is not `basisIndex`. -/
theorem jac_ortho_basis_at_axes_cex :
    ¬ ((jacOrthoBasisAt (fun t : ℝ × ℝ => quadJacMp Real.sqrt 1 t.1 t.2)
          [((0 : ℝ), (0 : ℝ))]).length
        = (quadJacMp (R := ℝ) Real.sqrt 1 0 0).length) := by
  intro hcontra
  simp [jacOrthoBasisAt, swapaxes02, quadJacMp, headLen, List.range_succ]
    at hcontra

/-- Witness for the amended C4 at a concrete instance over `ℚ`. -/
theorem jac_ortho_basis_at_axes_witness :
    (jacOrthoBasisAt (fun _ : Unit => [[(1 : ℚ), 2]]) [()]).length = 2 :=
  (jac_ortho_basis_at_axes (fun _ : Unit => [[(1 : ℚ), 2]]) [()] 2 1
    (by decide) (by decide) (by decide) (by decide)).1

end Polys

namespace Polys

variable {R : Type} [Field R] [DecidableEq R]

/-- C5 (amended): the cached `vdm` matrix is `ortho_basis_at(pts)` itself —
rows indexed by basis functions, columns indexed by the defining points,
entry `V[i, k]` equal to orthonormal basis function `i` at point `k` — with
no transposition beyond the one already inside `ortho_basis_at`. -/
theorem vdm_orientation {P : Type} (f : P → List R) (pts : List P) (n : ℕ)
    (hne : pts ≠ []) (hn : ∀ pt ∈ pts, (f pt).length = n) :
    vdmOf f pts = orthoBasisAt f pts
      ∧ (vdmOf f pts).length = n
      ∧ ∀ i, i < n → ∀ k, ∀ hk : k < pts.length,
          entry (vdmOf f pts) i k = (f (pts.get ⟨k, hk⟩)).getD i 0 := by
  obtain ⟨e, t, rfl⟩ := List.exists_cons_of_ne_nil hne
  have hhl : headLen (List.map f (e :: t)) = n := by
    simpa [headLen] using hn e (by simp)
  refine ⟨rfl, ?_, ?_⟩
  · simpa [vdmOf, orthoBasisAt, length_transposeLL] using hhl
  · intro i hi k hk
    unfold vdmOf orthoBasisAt
    rw [entry_transposeLL _ (by rw [hhl]; exact hi) (by simpa using hk), entry,
      getD_map_of_lt f (by simpa using hk) []]

/-- Counterexample for C5 as stated: for the order-2 Line basis with points
`[-1, 1]`, `vdm` is not the transpose of `ortho_basis_at(pts)` (its entry
`(0, 1)` is `√(1/2) > 0`, while the transpose has `-√(3/2) < 0` there). -/
theorem vdm_orientation_cex :
    vdmOf (lineMp Real.sqrt 2) [(-1 : ℝ), 1]
      ≠ transposeLL (orthoBasisAt (lineMp Real.sqrt 2) [(-1 : ℝ), 1]) := by
  intro hcontra
  have h01 := congrArg (fun L => entry L 0 1) hcontra
  simp [vdmOf, orthoBasisAt, transposeLL, headLen, entry, lineMp, jacobiP,
    List.range_succ] at h01
  have h1 : (0 : ℝ) < (Real.sqrt 2)⁻¹ := by positivity
  have h2 : (0 : ℝ) ≤ Real.sqrt (1 + 2⁻¹) := Real.sqrt_nonneg _
  linarith

/-- Witness for the amended C5 at a concrete instance over `ℚ`. -/
theorem vdm_orientation_witness :
    entry (vdmOf (fun x : ℚ => [x, x + 1]) [5, 7]) 1 0 = 6 := by
  have h := vdm_orientation (fun x : ℚ => [x, x + 1]) [5, 7] 2
    (by decide) (by decide)
  have h10 := h.2.2 1 (by decide) 0 (by decide)
  simpa using h10.trans (by norm_num)

lemma det_sqOf_congr {A B : List (List R)} (h : A = B) :
    (sqOf A).det = (sqOf B).det := by
  subst h
  rfl

lemma lineVdm2_eq : vdmOf (lineMp Real.sqrt 2) [(-1 : ℝ), 0, 1]
    = [[(Real.sqrt 2)⁻¹, (Real.sqrt 2)⁻¹, (Real.sqrt 2)⁻¹],
       [-(Real.sqrt 3 / Real.sqrt 2), 0, Real.sqrt 3 / Real.sqrt 2]] := by
  norm_num [vdmOf, orthoBasisAt, transposeLL, headLen, lineMp, jacobiP,
    List.range_succ]

lemma lineVdm3_eq : vdmOf (lineMp Real.sqrt 3) [(-1 : ℝ), 0, 1]
    = [[(Real.sqrt 2)⁻¹, (Real.sqrt 2)⁻¹, (Real.sqrt 2)⁻¹],
       [-(Real.sqrt 3 / Real.sqrt 2), 0, Real.sqrt 3 / Real.sqrt 2],
       [Real.sqrt 5 / Real.sqrt 2, -(Real.sqrt 5 / Real.sqrt 2 * (1 / 2)),
         Real.sqrt 5 / Real.sqrt 2]] := by
  norm_num [vdmOf, orthoBasisAt, transposeLL, headLen, lineMp, jacobiP,
    List.range_succ]

/-- On the order-2 Line basis with three defining points, the Vandermonde
matrix is 2×3, so `np.linalg.solve` fails. -/
lemma line2_nodal_none :
    nodalBasisAt (lineMp Real.sqrt 2) [(-1 : ℝ), 0, 1] [(-1 : ℝ), 0, 1]
      = none := by
  unfold nodalBasisAt
  rw [show orthoBasisAt (lineMp Real.sqrt 2) [(-1 : ℝ), 0, 1]
      = vdmOf (lineMp Real.sqrt 2) [(-1 : ℝ), 0, 1] from rfl, lineVdm2_eq]
  rw [npSolve, if_neg, Option.map_none']
  intro hcond
  have h2 := hcond.2.1 [(Real.sqrt 2)⁻¹, (Real.sqrt 2)⁻¹, (Real.sqrt 2)⁻¹]
    (by simp)
  simp at h2

/-- Counterexample for C6 as stated: on the order-2 Line basis with points
`[-1, 0, 1]` the nodal request does not return the 3×3 identity — the 2×3
Vandermonde matrix makes the solve fail (`LinAlgError`, here `none`). -/
theorem line_order2_scenario_cex :
    nodalBasisAt (lineMp Real.sqrt 2) [(-1 : ℝ), 0, 1] [(-1 : ℝ), 0, 1]
      ≠ some (identityL 3) := by
  rw [line2_nodal_none]
  simp

/-- C6 (corrected): for the Line shape with points `[-1, 0, 1]`:
`ortho_basis_at` at order 2 returns the two rows `√(n + 1/2)·P_n`
(degrees 0 and 1 of the orthonormalized Legendre family) at those points;
but the accompanying nodal request fails at order 2 (the 2×3 Vandermonde
matrix is not square), and it is at order 3 — where the Vandermonde matrix
is square and nonsingular — that `nodal_basis_at([-1, 0, 1])` returns the
3×3 identity matrix. -/
theorem line_order2_scenario :
    orthoBasisAt (lineMp Real.sqrt 2) [(-1 : ℝ), 0, 1]
      = [[Real.sqrt (1/2), Real.sqrt (1/2), Real.sqrt (1/2)],
         [-Real.sqrt (3/2), 0, Real.sqrt (3/2)]]
    ∧ nodalBasisAt (lineMp Real.sqrt 2) [(-1 : ℝ), 0, 1] [(-1 : ℝ), 0, 1]
        = none
    ∧ nodalBasisAt (lineMp Real.sqrt 3) [(-1 : ℝ), 0, 1] [(-1 : ℝ), 0, 1]
        = some (identityL 3) := by
  refine ⟨?_, line2_nodal_none, ?_⟩
  · have h32 : Real.sqrt (3/2) = Real.sqrt (1 + 2⁻¹) := by norm_num
    simp [orthoBasisAt, transposeLL, headLen, lineMp, jacobiP,
      List.range_succ, h32]
  · have hdet : (sqOf (vdmOf (lineMp Real.sqrt 3) [(-1 : ℝ), 0, 1])).det ≠ 0 := by
      rw [det_sqOf_congr lineVdm3_eq]
      have hd : (sqOf [[(Real.sqrt 2)⁻¹, (Real.sqrt 2)⁻¹, (Real.sqrt 2)⁻¹],
          [-(Real.sqrt 3 / Real.sqrt 2), 0, Real.sqrt 3 / Real.sqrt 2],
          [Real.sqrt 5 / Real.sqrt 2, -(Real.sqrt 5 / Real.sqrt 2 * (1 / 2)),
            Real.sqrt 5 / Real.sqrt 2]]).det
          = 3 * ((Real.sqrt 2)⁻¹ * (Real.sqrt 3 / Real.sqrt 2)
              * (Real.sqrt 5 / Real.sqrt 2)) := by
        rw [Matrix.det_fin_three]
        simp [sqOf]
        ring
      rw [hd]
      positivity
    have hne : vdmOf (lineMp Real.sqrt 3) [(-1 : ℝ), 0, 1] ≠ [] := by
      rw [lineVdm3_eq]
      simp
    have hsq : ∀ r ∈ vdmOf (lineMp Real.sqrt 3) [(-1 : ℝ), 0, 1],
        r.length = (vdmOf (lineMp Real.sqrt 3) [(-1 : ℝ), 0, 1]).length := by
      rw [lineVdm3_eq]
      intro r hr
      simp at hr
      rcases hr with rfl | rfl | rfl <;> simp
    have h := nodalBasisAt_self (lineMp Real.sqrt 3) [(-1 : ℝ), 0, 1]
      hne hsq hdet
    simpa using h

end Polys

namespace Polys

variable {R : Type} [Field R] [DecidableEq R]

/-- C7: for the Quad shape with order 1, `ortho_basis_at_mp` at every point
`(p, q)` returns a single-element sequence whose value is the degree-0
normalization constant on `[-1, 1]²`, namely `1/2`, independent of `p`, `q`. -/
theorem quad_order1_constant (p q : ℝ) :
    quadMp Real.sqrt 1 p q = [1/2] := by
  have h : (Real.sqrt 2)⁻¹ * (Real.sqrt 2)⁻¹ = 2⁻¹ := by
    rw [← mul_inv, Real.mul_self_sqrt (by norm_num : (0:ℝ) ≤ 2)]
  simp [quadMp, jacobiP, List.range_succ, h]

/-- C8: `get_polybasis(name, order, pts)` is a lookup error — `none`, with no
object constructed — when the name is not one of the seven registered shape
names; and for each registered name it returns an instance of the
corresponding shape class carrying the given order and point set. -/
theorem get_polybasis_registry {Pt : Type} (name : String) (order : ℕ)
    (pts : List Pt) :
    (name ∉ ["line", "tri", "quad", "tet", "pri", "pyr", "hex"] →
        get_polybasis name order pts = none)
      ∧ get_polybasis "line" order pts = some ⟨.line, order, pts⟩
      ∧ get_polybasis "tri" order pts = some ⟨.tri, order, pts⟩
      ∧ get_polybasis "quad" order pts = some ⟨.quad, order, pts⟩
      ∧ get_polybasis "tet" order pts = some ⟨.tet, order, pts⟩
      ∧ get_polybasis "pri" order pts = some ⟨.pri, order, pts⟩
      ∧ get_polybasis "pyr" order pts = some ⟨.pyr, order, pts⟩
      ∧ get_polybasis "hex" order pts = some ⟨.hex, order, pts⟩ := by
  refine ⟨?_, ?_, ?_, ?_, ?_, ?_, ?_, ?_⟩
  · intro h
    unfold get_polybasis subclassWhere
    rw [List.find?_eq_none.mpr, Option.map_none']
    intro k hk
    simp only [decide_eq_true_eq]
    fin_cases hk <;> simp only [shapeName] <;> intro he <;>
      exact h (by rw [← he]; simp)
  · simp [get_polybasis, (by decide : subclassWhere "line" = some ShapeKind.line)]
  · simp [get_polybasis, (by decide : subclassWhere "tri" = some ShapeKind.tri)]
  · simp [get_polybasis, (by decide : subclassWhere "quad" = some ShapeKind.quad)]
  · simp [get_polybasis, (by decide : subclassWhere "tet" = some ShapeKind.tet)]
  · simp [get_polybasis, (by decide : subclassWhere "pri" = some ShapeKind.pri)]
  · simp [get_polybasis, (by decide : subclassWhere "pyr" = some ShapeKind.pyr)]
  · simp [get_polybasis, (by decide : subclassWhere "hex" = some ShapeKind.hex)]

/-- Witness for C8: the unknown name "foo" resolves to a lookup error. -/
theorem get_polybasis_registry_witness :
    @get_polybasis Unit "foo" 0 [] = none :=
  (@get_polybasis_registry Unit "foo" 0 []).1 (by decide)

/-- C9: constructing a basis with an empty point set succeeds for every
registered shape (the factory default is `pts=[]`), and modal evaluation
still works — `ortho_basis_at`/`jac_ortho_basis_at` never read `self.pts`,
as the concrete Line evaluation shows — but every nodal-basis request on such
an instance fails at solve time (the empty Vandermonde stack is rejected by
the solver), not at construction time. -/
theorem empty_points_modal_ok_nodal_fails (order : ℕ) {Pt : Type} :
    (∀ k : ShapeKind,
        @get_polybasis Pt (shapeName k) order [] = some ⟨k, order, []⟩)
      ∧ orthoBasisAt (lineMp (R := ℚ) id 2) [(-1 : ℚ), 0, 1]
          = [[1/2, 1/2, 1/2], [-(3/2), 0, 3/2]]
      ∧ ∀ {P : Type} (f : P → List ℚ) (fj : P → List (List ℚ)) (epts : List P),
          nodalBasisAt f ([] : List P) epts = none
            ∧ jacNodalBasisAt f fj ([] : List P) epts = none := by
  refine ⟨?_, ?_, ?_⟩
  · intro k
    cases k <;>
      simp [get_polybasis, shapeName,
        (by decide : subclassWhere "line" = some ShapeKind.line),
        (by decide : subclassWhere "tri" = some ShapeKind.tri),
        (by decide : subclassWhere "quad" = some ShapeKind.quad),
        (by decide : subclassWhere "tet" = some ShapeKind.tet),
        (by decide : subclassWhere "pri" = some ShapeKind.pri),
        (by decide : subclassWhere "pyr" = some ShapeKind.pyr),
        (by decide : subclassWhere "hex" = some ShapeKind.hex)]
  · norm_num [orthoBasisAt, transposeLL, headLen, lineMp, jacobiP,
      List.range_succ]
  · intro P f fj epts
    constructor
    · simp [nodalBasisAt, vdmOf, orthoBasisAt, transposeLL, headLen, npSolve]
    · simp [jacNodalBasisAt, vdmOf, orthoBasisAt, transposeLL, headLen,
        npSolve3]

/-- C10: for a non-empty evaluation point list, the scalar-to-1-tuple
promotion is decided solely by the first element: every element is wrapped
(whatever its own shape) exactly when the first element is not iterable,
and the list is left alone when the first element is iterable. -/
theorem promote_decided_by_head {S : Type} (pts : List (PyVal S))
    (hne : pts ≠ []) :
    (isIter (pts.headD (.tup [])) = false →
        promotePts pts = pts.map (fun p => .tup [p]))
      ∧ (isIter (pts.headD (.tup [])) = true → promotePts pts = pts) := by
  have hlen : pts.length ≠ 0 := fun hl => hne (List.length_eq_zero.mp hl)
  constructor
  · intro h
    unfold promotePts
    rw [if_pos ⟨hlen, h⟩]
  · intro h
    unfold promotePts
    rw [if_neg]
    rintro ⟨-, h2⟩
    rw [h] at h2
    cases h2

/-- Witness for C10: a mixed list whose first element is a scalar gets every
element wrapped, the embedded tuple included. -/
theorem promote_decided_by_head_witness :
    promotePts [PyVal.scalar (1 : ℚ), .tup [.scalar 2]]
      = [.tup [.scalar 1], .tup [.tup [.scalar 2]]] := by
  have h := (promote_decided_by_head
    [PyVal.scalar (1 : ℚ), .tup [.scalar 2]] (by simp)).1 rfl
  exact h.trans rfl

end Polys
